import Mathlib

/-!
# EFL window driver (`desktop/efl/eflwindow.go`)

A shallow embedding of the window registry, the window lifecycle operations,
the DPI scale heuristic and the four native event adapters of the EFL driver,
followed by the properties proved about them.

Conventions of the embedding.

* Native calls that only change native state (show, hide, title, callback
  registration), the calls into other files of the package (`DoQuit`,
  `initEFL`, `oSWindowInit`, the canvas methods) and `log` output are recorded,
  in program order, in the `trace` of the `World`.
* Native queries (`ecore_evas_geometry_get`, `ecore_evas_screen_dpi_get`,
  `ecore_evas_window_get`), `os.Getenv` and `strconv.ParseFloat` are fields of
  a `Host`.
* A `*window` is an index into `World.heap` (`none` is the nil pointer); a
  panic or `log.Fatalln` is a `Fault`.
* A `float32` is an `F32`: a finite value is an integer number of units of
  `2 ^ (-149)`, the smallest positive `float32`, and arithmetic rounds to
  nearest, ties to even (IEEE 754 single precision, as on amd64 and arm64).
  Go `int` is 64 bits wide.
* The focused target's `OnKeyDown` and the canvas's `onKeyDown` are handlers
  supplied by the toolkit's users: a call is recorded with its argument, and
  what the handler does is not part of this file.
-/

namespace Efl

/-! ## float32 -/

/-- Go `float32` value. Every finite `float32` is an integer multiple of
`2 ^ (-149)`; `fin u` is the value `u * 2 ^ (-149)` (`fin 0` is `+0`). -/
inductive F32 where
  | fin (units : Int)
  | negZero
  | inf (neg : Bool)
  | nan
deriving DecidableEq, Repr

/-- Number of units in `1.0`. -/
def F32.one : Nat := 2 ^ 149

/-- Nearest integer to `n / d`, ties to the even one (`0 < d`). -/
def roundHalfEven (n d : Nat) : Nat :=
  let q := n / d
  let r := n % d
  if 2 * r < d then q
  else if d < 2 * r then q + 1
  else if q % 2 = 0 then q else q + 1

/-- Worker of `ilog2`: at most `fuel` halvings. -/
def log2Fuel : Nat → Nat → Nat
  | 0, _ => 0
  | fuel + 1, n => if n < 2 then 0 else log2Fuel fuel (n / 2) + 1

/-- Floor of the base-2 logarithm (`0` at `0`). -/
def ilog2 (n : Nat) : Nat := log2Fuel n n

/-- Binary exponent of the positive ratio `n / d`: the `e` with
`2 ^ e ≤ n / d < 2 ^ (e + 1)`. -/
def binExp (n d : Nat) : Int :=
  let a := ilog2 n
  let b := ilog2 d
  if d * 2 ^ a ≤ n * 2 ^ b then (a : Int) - b else (a : Int) - b - 1

/-- Magnitude, in units, of the `float32` nearest to the positive ratio `n / d`
(24 significant bits, exponent at least `-126`); `none` on overflow. -/
def roundMag (n d : Nat) : Option Nat :=
  let p : Int := max (binExp n d) (-126) - 23
  let u : Nat :=
    if p ≤ 0 then roundHalfEven (n * 2 ^ (-p).toNat) d * 2 ^ (p + 149).toNat
    else roundHalfEven n (d * 2 ^ p.toNat) * 2 ^ (p + 149).toNat
  if u < 2 ^ 128 * F32.one then some u else none

/-- Zero of the given sign. -/
def F32.zero (neg : Bool) : F32 := if neg then .negZero else .fin 0

/-- The `float32` nearest to `± n / d` for `0 < n`, `0 < d`. -/
def F32.round (neg : Bool) (n d : Nat) : F32 :=
  match roundMag n d with
  | none => .inf neg
  | some u =>
    if u = 0 then F32.zero neg
    else .fin (if neg then -(u : Int) else (u : Int))

/-- Go conversion `float32(i)` of an integer. -/
def F32.ofInt (i : Int) : F32 :=
  if i = 0 then .fin 0 else F32.round (decide (i < 0)) i.natAbs 1

/-- Sign bit. -/
def F32.sign : F32 → Bool
  | .fin u => decide (u < 0)
  | .negZero => true
  | .inf neg => neg
  | .nan => false

/-- Magnitude in units of a finite value. -/
def F32.mag : F32 → Nat
  | .fin u => u.natAbs
  | _ => 0

/-- Whether the value is `+0` or `-0`. -/
def F32.isZero : F32 → Bool
  | .fin u => decide (u = 0)
  | .negZero => true
  | _ => false

/-- IEEE 754 division `x / y` on `float32`. -/
def F32.div (x y : F32) : F32 :=
  match x, y with
  | .nan, _ => .nan
  | _, .nan => .nan
  | .inf _, .inf _ => .nan
  | .inf a, y => .inf (xor a y.sign)
  | x, .inf b => F32.zero (xor x.sign b)
  | x, y =>
    let s := xor x.sign y.sign
    if y.isZero then (if x.isZero then .nan else .inf s)
    else if x.isZero then F32.zero s
    else F32.round s x.mag y.mag

/-- Go comparison `x != y` on `float32`: a NaN differs from everything, the
two zeros are equal. -/
def F32.ne (x y : F32) : Bool :=
  match x, y with
  | .nan, _ => true
  | _, .nan => true
  | x, y => !(decide (x = y) || (x.isZero && y.isZero))

/-- Go conversion `int(x)` on a 64-bit target: truncation toward zero. When
the value is not finite or does not fit, Go leaves the result to the
implementation; `indef` is that result. -/
def F32.toInt (indef : Int) : F32 → Int
  | .fin u =>
    let t : Int := if u < 0 then -((u.natAbs / F32.one : Nat) : Int)
      else ((u.natAbs / F32.one : Nat) : Int)
    if -((2 ^ 63 : Nat) : Int) ≤ t ∧ t < ((2 ^ 63 : Nat) : Int) then t else indef
  | .negZero => 0
  | _ => indef

/-- Exact rational value of a finite `float32` (`0` for the others). -/
def F32.toRat : F32 → ℚ
  | .fin u => (u : ℚ) / (F32.one : ℚ)
  | _ => 0

/-- The constant `float32(1.5)`. -/
def float32_1_5 : F32 := F32.round false 15 10

/-- The constant `float32(1.2)`. -/
def float32_1_2 : F32 := F32.round false 12 10

/-- The constant `float32(1.0)`. -/
def float32_1_0 : F32 := F32.round false 10 10

/-! ## Data model -/

/-- A `*C.Ecore_Evas`; `0` is the nil pointer. -/
abbrev Handle := Nat

/-- A `*window`: an index into the heap of window records, `none` for nil. -/
abbrev WinPtr := Option Nat

/-- The fields of `ui.KeyEvent` this file fills in. -/
structure KeyEvent where
  Name : String
  Code : Int
  Modifiers : Nat
  String : String
deriving DecidableEq, Repr

/-- The fields of the native `Ecore_Event_Key` this file reads. -/
structure KeyInfo where
  string : String
  keyname : String
  keycode : Int
  modifiers : Nat
deriving DecidableEq, Repr

/-- What a canvas shows: nothing yet, the empty `ui.Container` that
`CreateWindow` installs, or some other object. -/
inductive Content where
  | nil
  | emptyContainer
  | object (id : Nat)
deriving DecidableEq, Repr

/-- Modelled from the spec: the `eflCanvas` type is declared in a file of the
package that is not part of the sources read here. These are the fields this
file reads or writes: the native canvas, the scale, the owning window, the
logical size, the content, the focused input target and the key-down
observer (the last two are `none` when nil). -/
structure eflCanvas where
  evas : Nat
  scale : F32
  window : Nat
  size : Int × Int
  content : Content
  focussed : Option Nat
  onKeyDown : Option Nat
deriving DecidableEq, Repr

/-- The `window` record. `canvas` is the `ui.Canvas` interface value: `none`
while it is nil, otherwise the `*eflCanvas` it holds, stored with its window
because each canvas belongs to exactly one window. -/
structure window where
  ee : Handle
  canvas : Option eflCanvas
  driver : Nat
  master : Bool
deriving DecidableEq, Repr

/-- Observable actions, in program order. -/
inductive Effect where
  | nativeInit
  | titleSet (ee : Handle) (title : String)
  | fullscreenSet (ee : Handle) (full : Bool)
  | ecoreShow (ee : Handle)
  | ecoreHide (ee : Handle)
  | initEFL
  | doQuit
  | oSWindowInit (w : WinPtr)
  | callbacksSet (ee : Handle)
  | keyHandlerAdded
  | setContent (w : WinPtr) (c : Content)
  | setScale (w : WinPtr) (s : F32)
  | refresh (w : WinPtr) (c : Content)
  | focusKeyDown (target : Nat) (ev : KeyEvent)
  | observerKeyDown (observer : Nat) (ev : KeyEvent)
  | logLine (msg : String)
deriving DecidableEq, Repr

/-- Ways an operation stops the program: a nil pointer dereference, a failed
type assertion on a nil `ui.Canvas`, or `log.Fatalln`. -/
inductive Fault where
  | nilDeref
  | typeAssert
  | fatal (msg : String)
deriving DecidableEq, Repr

/-- The package state: the window records, the `windows` map (the order of the
list is the order in which one `range` over the map visits it) and the trace. -/
structure World where
  heap : List window
  windows : List (Handle × Nat)
  trace : List Effect
deriving DecidableEq, Repr

/-- What the program asks of its surroundings. `ParseFloat s` is
`strconv.ParseFloat(s, 32)`: the value, already a `float32`, and whether the
error is non-nil. The six modifier masks are the native and the toolkit
constants for shift, control and alt. -/
structure Host where
  getenv : String → String
  ParseFloat : String → F32 × Bool
  screen_dpi : Handle → Int
  geometry : Handle → Int × Int
  window_get : Handle → Nat
  ecore_evas_get : Handle → Nat
  oSEngineName : String
  indefinite : Int
  ECORE_EVENT_MODIFIER_SHIFT : Nat
  ECORE_EVENT_MODIFIER_CTRL : Nat
  ECORE_EVENT_MODIFIER_ALT : Nat
  ShiftModifier : Nat
  ControlModifier : Nat
  AltModifier : Nat

/-- The state of a fresh process: `windows` is the empty map. -/
def World.init : World := { heap := [], windows := [], trace := [] }

/-- Appends an action to the trace. -/
def World.emit (σ : World) (e : Effect) : World :=
  { σ with trace := σ.trace ++ [e] }

/-- Map index `windows[ee]`: nil when there is no entry. -/
def World.lookup (σ : World) (ee : Handle) : WinPtr :=
  List.lookup ee σ.windows

/-- Map assignment `m[k] = v`. -/
def mapPut (m : List (Handle × Nat)) (k : Handle) (v : Nat) : List (Handle × Nat) :=
  if m.any (fun e => e.1 == k) then m.map (fun e => if e.1 == k then (k, v) else e)
  else m ++ [(k, v)]

/-- Map removal `delete(m, k)`. -/
def mapDelete (m : List (Handle × Nat)) (k : Handle) : List (Handle × Nat) :=
  m.filter (fun e => e.1 != k)

/-- Reads the record behind a `*window`. -/
def World.deref (σ : World) (w : WinPtr) : Except Fault window :=
  match w with
  | none => .error .nilDeref
  | some p =>
    match σ.heap[p]? with
    | none => .error .nilDeref
    | some r => .ok r

/-- Writes the record behind a `*window` (nothing to write through nil). -/
def World.store (σ : World) (w : WinPtr) (r : window) : World :=
  match w with
  | none => σ
  | some p => { σ with heap := σ.heap.set p r }

/-! ## Window lifecycle -/

/-- `func (w *window) SetTitle(title string)`. -/
def window.SetTitle (w : WinPtr) (title : String) (σ : World) : Except Fault World :=
  match σ.deref w with
  | .error f => .error f
  | .ok r => .ok (σ.emit (.titleSet r.ee title))

/-- `func (w *window) SetFullscreen(full bool)`. -/
def window.SetFullscreen (w : WinPtr) (full : Bool) (σ : World) : Except Fault World :=
  match σ.deref w with
  | .error f => .error f
  | .ok r => .ok (σ.emit (.fullscreenSet r.ee full))

/-- `func (w *window) Show()`. -/
def window.Show (w : WinPtr) (σ : World) : Except Fault World :=
  match σ.deref w with
  | .error f => .error f
  | .ok r =>
    let σ1 := σ.emit (.ecoreShow r.ee)
    if σ1.windows.length = 1 then
      .ok ((σ1.store w { r with master := true }).emit .initEFL)
    else .ok σ1

/-- `func (w *window) Hide()`. -/
def window.Hide (w : WinPtr) (σ : World) : Except Fault World :=
  match σ.deref w with
  | .error f => .error f
  | .ok r => .ok (σ.emit (.ecoreHide r.ee))

/-- `func (w *window) Close()`. -/
def window.Close (w : WinPtr) (σ : World) : Except Fault World :=
  match window.Hide w σ with
  | .error f => .error f
  | .ok σ1 =>
    match σ1.deref w with
    | .error f => .error f
    | .ok r =>
      if r.master || σ1.windows.length = 1 then .ok (σ1.emit .doQuit)
      else .ok { σ1 with windows := mapDelete σ1.windows r.ee }

/-- `func (w *window) Canvas() ui.Canvas`. -/
def window.Canvas (w : WinPtr) (σ : World) : Except Fault (Option eflCanvas) :=
  match σ.deref w with
  | .error f => .error f
  | .ok r => .ok r.canvas

/-! ## DPI scale heuristic -/

/-- `func scaleByDPI(w *window) float32`, for a non-nil `w` with record `r`.
`ParseFloat(env, 32)` yields a value that `float32(scale)` converts without
change; its error is discarded, as in the source. -/
def scaleByDPI (h : Host) (r : window) : F32 :=
  let env := h.getenv "FYNE_SCALE"
  if env ≠ "" then
    (h.ParseFloat env).1
  else
    let xdpi := h.screen_dpi r.ee
    if xdpi > 250 then float32_1_5
    else if xdpi > 120 then float32_1_2
    else float32_1_0

/-- The scale as the specification words it: the override when there is one,
otherwise the threshold table on the measured DPI `d`. -/
def scaleReference (override : Option F32) (d : Int) : F32 :=
  match override with
  | some v => v
  | none =>
    if d > 250 then float32_1_5
    else if 120 < d ∧ d ≤ 250 then float32_1_2
    else float32_1_0

/-! ## Canvas methods used by the adapters -/

/-- Modelled from the spec: `(*eflCanvas).Scale` is defined in a file that is
not part of the sources read here; it returns the canvas's current scale. -/
def eflCanvas.Scale (c : eflCanvas) : F32 := c.scale

/-- The type assertion `w.canvas.(*eflCanvas)`. -/
def window.canvasAssert (r : window) : Except Fault eflCanvas :=
  match r.canvas with
  | none => .error .typeAssert
  | some c => .ok c

/-- Modelled from the spec: `(*eflCanvas).SetScale` is defined in a file that
is not part of the sources read here; it applies the new scale to the canvas
of window `w` (any relayout it triggers is the canvas's own business). -/
def eflCanvas.SetScale (w : WinPtr) (r : Efl.window) (c : eflCanvas) (s : F32)
    (σ : World) : World :=
  (σ.store w { r with canvas := some { c with scale := s } }).emit (.setScale w s)

/-- Modelled from the spec: `(*eflCanvas).SetContent` is defined in a file that
is not part of the sources read here; it makes `o` the content of the canvas
of window `w`. -/
def eflCanvas.SetContent (w : WinPtr) (r : Efl.window) (c : eflCanvas) (o : Content)
    (σ : World) : World :=
  (σ.store w { r with canvas := some { c with content := o } }).emit (.setContent w o)

/-- Modelled from the spec: `(*eflCanvas).Refresh` is defined in a file that is
not part of the sources read here; the call is recorded with the object it is
given. -/
def eflCanvas.Refresh (w : WinPtr) (o : Content) (σ : World) : World :=
  σ.emit (.refresh w o)

/-! ## Event adapters -/

/-- One component of the new logical size:
`int(float32(px) / canvas.Scale())`. -/
def logicalSize (h : Host) (px : Int) (scale : F32) : Int :=
  F32.toInt h.indefinite (F32.div (F32.ofInt px) scale)

/-- `func onWindowResize(ee *C.Ecore_Evas)`. -/
def onWindowResize (h : Host) (ee : Handle) (σ : World) : Except Fault World :=
  let ww := (h.geometry ee).1
  let hh := (h.geometry ee).2
  let w := σ.lookup ee
  match σ.deref w with
  | .error f => .error f
  | .ok r =>
    match r.canvasAssert with
    | .error f => .error f
    | .ok canvas =>
      let canvas1 : eflCanvas :=
        { canvas with size := (logicalSize h ww canvas.Scale, logicalSize h hh canvas.Scale) }
      .ok (eflCanvas.Refresh w canvas1.content
        (σ.store w { r with canvas := some canvas1 }))

/-- `func onWindowMove(ee *C.Ecore_Evas)`. -/
def onWindowMove (h : Host) (ee : Handle) (σ : World) : Except Fault World :=
  let w := σ.lookup ee
  match σ.deref w with
  | .error f => .error f
  | .ok r =>
    match r.canvasAssert with
    | .error f => .error f
    | .ok canvas =>
      let scale := scaleByDPI h r
      if F32.ne scale canvas.Scale then
        .ok (eflCanvas.SetScale w r canvas (scaleByDPI h r) σ)
      else .ok σ

/-- `func onWindowClose(ee *C.Ecore_Evas)`. -/
def onWindowClose (ee : Handle) (σ : World) : Except Fault World :=
  window.Close (σ.lookup ee) σ

/-- The loop of `onWindowKeyDown` over the remaining map entries: `w` is the
match found so far, and a later match replaces it. -/
def findWindow (h : Host) (ew : Nat) (σ : World) :
    List (Handle × Nat) → WinPtr → Except Fault WinPtr
  | [], w => .ok w
  | (_, p) :: rest, w =>
    match σ.deref (some p) with
    | .error f => .error f
    | .ok win =>
      if h.window_get win.ee = ew then findWindow h ew σ rest (some p)
      else findWindow h ew σ rest w

/-- The `ui.KeyEvent` built from the native key info. -/
def keyEvent (h : Host) (info : KeyInfo) : KeyEvent :=
  let m0 : Nat := 0
  let m1 := if info.modifiers &&& h.ECORE_EVENT_MODIFIER_SHIFT ≠ 0
    then m0 ||| h.ShiftModifier else m0
  let m2 := if info.modifiers &&& h.ECORE_EVENT_MODIFIER_CTRL ≠ 0
    then m1 ||| h.ControlModifier else m1
  let m3 := if info.modifiers &&& h.ECORE_EVENT_MODIFIER_ALT ≠ 0
    then m2 ||| h.AltModifier else m2
  { String := info.string, Name := info.keyname, Code := info.keycode, Modifiers := m3 }

/-- The two deliveries at the end of `onWindowKeyDown`: the focused target's
`OnKeyDown`, then the canvas's `onKeyDown`. Both are handlers defined outside
this file; each call is recorded with the event it is given. -/
def deliverKey (canvas : eflCanvas) (ev : KeyEvent) (σ : World) : World :=
  let σ1 := match canvas.focussed with
    | some t => σ.emit (.focusKeyDown t ev)
    | none => σ
  match canvas.onKeyDown with
  | some o => σ1.emit (.observerKeyDown o ev)
  | none => σ1

/-- `func onWindowKeyDown(ew C.Ecore_Window, info *C.Ecore_Event_Key)`. -/
def onWindowKeyDown (h : Host) (ew : Nat) (info : KeyInfo) (σ : World) :
    Except Fault World :=
  if ew = 0 then .ok (σ.emit (.logLine "Keystroke missing window"))
  else
    match findWindow h ew σ σ.windows none with
    | .error f => .error f
    | .ok none => .ok (σ.emit (.logLine "Window not found"))
    | .ok (some p) =>
      match σ.deref (some p) with
      | .error f => .error f
      | .ok r =>
        match r.canvasAssert with
        | .error f => .error f
        | .ok canvas =>
          if canvas.focussed = none ∧ canvas.onKeyDown = none then .ok σ
          else .ok (deliverKey canvas (keyEvent h info) σ)

/-! ## Window creation -/

/-- `func (d *eFLDriver) CreateWindow(title string) ui.Window`. `evas` is what
`ecore_evas_new` returns for this call. `oSEngineName` and `oSWindowInit` are
platform helpers defined outside this file; the latter is recorded as an
action on the new window. -/
def CreateWindow (h : Host) (d : Nat) (title : String) (evas : Handle) (σ : World) :
    Except Fault (World × WinPtr) :=
  let engine := h.oSEngineName
  let σ0 := σ.emit .nativeInit
  if evas = 0 then
    .error (.fatal ("Unable to create canvas, perhaps missing module for " ++ engine))
  else
    let w : WinPtr := some σ0.heap.length
    let r : window := { ee := evas, canvas := none, driver := d, master := false }
    let σ1 : World := { σ0 with heap := σ0.heap ++ [r] }
    match window.SetTitle w title σ1 with
    | .error f => .error f
    | .ok σ2 =>
      let σ3 := σ2.emit (.oSWindowInit w)
      let c : eflCanvas :=
        { evas := h.ecore_evas_get evas, scale := float32_1_0, window := σ0.heap.length,
          size := (0, 0), content := .nil, focussed := none, onKeyDown := none }
      let r1 : window := { r with canvas := some c }
      let σ4 := σ3.store w r1
      let σ5 : World := { σ4 with windows := mapPut σ4.windows r1.ee σ0.heap.length }
      let σ6 := (σ5.emit (.callbacksSet r1.ee)).emit .keyHandlerAdded
      .ok (eflCanvas.SetContent w r1 c .emptyContainer σ6, w)

/-- `func (d *eFLDriver) AllWindows() []ui.Window`. -/
def AllWindows (σ : World) : List WinPtr :=
  σ.windows.map (fun e => some e.2)

/-! ## Sample surroundings used by the concrete instances -/

/-- Values of `strconv.ParseFloat(s, 32)` on the two strings the concrete
instances use: `"2"` parses to `2` with a nil error, and `"abc"` is a syntax
error, for which `ParseFloat` returns `0` and a non-nil error. No other string
is used; each is answered like `"abc"`. -/
def sampleParseFloat (s : String) : F32 × Bool :=
  if s = "2" then (F32.ofInt 2, false) else (F32.fin 0, true)

/-- A host whose `FYNE_SCALE` is `override`, whose screens all report `dpi`,
whose windows all have pixel geometry `geom`, and where the native window of
handle `ee` is `ee + 100`. The modifier masks are those of `Ecore_Input.h`
and of the toolkit's `input` package. -/
def sampleHost (override : String) (dpi : Int) (geom : Int × Int) : Host :=
  { getenv := fun k => if k = "FYNE_SCALE" then override else ""
    ParseFloat := sampleParseFloat
    screen_dpi := fun _ => dpi
    geometry := fun _ => geom
    window_get := fun ee => ee + 100
    ecore_evas_get := fun ee => ee + 1000
    oSEngineName := "wayland_shm"
    indefinite := -((2 ^ 63 : Nat) : Int)
    ECORE_EVENT_MODIFIER_SHIFT := 1
    ECORE_EVENT_MODIFIER_CTRL := 2
    ECORE_EVENT_MODIFIER_ALT := 4
    ShiftModifier := 1
    ControlModifier := 2
    AltModifier := 4 }

/-- Creates one window per handle of the list, in order, each with an empty
title; stops at the first fault. -/
def createAll (h : Host) (d : Nat) : List Handle → World → Except Fault World
  | [], σ => .ok σ
  | evas :: rest, σ =>
    match CreateWindow h d "" evas σ with
    | .error f => .error f
    | .ok (σ1, _) => createAll h d rest σ1

/-! ## Auxiliary definitions for the statements -/

instance instDecidableEqExcept {ε α : Type} [DecidableEq ε] [DecidableEq α] :
    DecidableEq (Except ε α)
  | .ok a, .ok b =>
    if h : a = b then isTrue (by rw [h]) else isFalse (fun h2 => h (Except.ok.inj h2))
  | .error a, .error b =>
    if h : a = b then isTrue (by rw [h]) else isFalse (fun h2 => h (Except.error.inj h2))
  | .ok _, .error _ => isFalse (fun h => by cases h)
  | .error _, .ok _ => isFalse (fun h => by cases h)

/-- The window record `CreateWindow` leaves at address `p`. -/
def createdWindow (h : Host) (d : Nat) (evas : Handle) (p : Nat) : window :=
  { ee := evas
    canvas := some
      { evas := h.ecore_evas_get evas, scale := float32_1_0, window := p, size := (0, 0),
        content := .emptyContainer, focussed := none, onKeyDown := none }
    driver := d
    master := false }

/-- The state `CreateWindow` leaves when the native library returns a non-nil
handle. -/
def created (h : Host) (d : Nat) (title : String) (evas : Handle) (σ : World) : World :=
  { heap := σ.heap ++ [createdWindow h d evas σ.heap.length]
    windows := mapPut σ.windows evas σ.heap.length
    trace := σ.trace ++ [.nativeInit, .titleSet evas title,
      .oSWindowInit (some σ.heap.length), .callbacksSet evas, .keyHandlerAdded,
      .setContent (some σ.heap.length) .emptyContainer] }

/-- Neither the driver initialization nor the quit path occurs in the trace. -/
def quiet (t : List Effect) : Prop := Effect.initEFL ∉ t ∧ Effect.doQuit ∉ t

/-- The logical size stored in the canvas of the window at address `p`. -/
def storedSize (σ : World) (p : Nat) : Option (Int × Int) :=
  match σ.heap[p]? with
  | some r => r.canvas.map (fun c => c.size)
  | none => none

/-- The scale stored in the canvas of the window at address `p`. -/
def storedScale (σ : World) (p : Nat) : Option F32 :=
  match σ.heap[p]? with
  | some r => r.canvas.map (fun c => c.scale)
  | none => none

/-- A registry of three windows with handles 1, 2, 3: the first is the master
window and its canvas has both a focused target (7) and a key-down observer
(9); the second has only an observer (5); the third has neither. -/
def sampleWorld : World :=
  { heap :=
      [ { ee := 1, driver := 0, master := true
          canvas := some
            { evas := 1001, scale := float32_1_0, window := 0, size := (0, 0),
              content := .emptyContainer, focussed := some 7, onKeyDown := some 9 } },
        { ee := 2, driver := 0, master := false
          canvas := some
            { evas := 1002, scale := float32_1_0, window := 1, size := (0, 0),
              content := .emptyContainer, focussed := none, onKeyDown := some 5 } },
        { ee := 3, driver := 0, master := false
          canvas := some
            { evas := 1003, scale := float32_1_0, window := 2, size := (0, 0),
              content := .emptyContainer, focussed := none, onKeyDown := none } } ]
    windows := [(1, 0), (2, 1), (3, 2)]
    trace := [] }

/-- A key press of `a` with shift and control held. -/
def sampleKey : KeyInfo := { string := "A", keyname := "a", keycode := 38, modifiers := 3 }


/-! ## Properties -/

theorem float32_1_0_eq : float32_1_0 = .fin (F32.one : Nat) := by decide
theorem float32_1_5_eq : float32_1_5 = .fin ((3 * 2 ^ 148 : Nat) : Int) := by decide
theorem float32_1_2_eq : float32_1_2 = .fin ((5033165 * 2 ^ 127 : Nat) : Int) := by decide

theorem deref_some {σ : World} {p : Nat} {r : window} (hr : σ.heap[p]? = some r) :
    σ.deref (some p) = .ok r := by
  simp [World.deref, hr]

theorem deref_none (σ : World) : σ.deref none = .error .nilDeref := rfl

theorem deref_emit (σ : World) (e : Effect) (w : WinPtr) :
    (σ.emit e).deref w = σ.deref w := rfl

theorem lookup_mapDelete_self (m : List (Handle × Nat)) (k : Handle) :
    List.lookup k (mapDelete m k) = none := by
  induction m with
  | nil => rfl
  | cons e m ih =>
    obtain ⟨a, b⟩ := e
    by_cases hk : a = k
    · simpa [mapDelete, hk] using ih
    · have hk2 : (k == a) = false := by simpa using fun h => hk h.symm
      simpa [mapDelete, hk, List.lookup, hk2] using ih

theorem lookup_mapDelete_ne (m : List (Handle × Nat)) {k j : Handle} (hj : j ≠ k) :
    List.lookup j (mapDelete m k) = List.lookup j m := by
  induction m with
  | nil => rfl
  | cons e m ih =>
    obtain ⟨a, b⟩ := e
    by_cases hk : a = k
    · subst hk
      have hj2 : (j == a) = false := by simpa using hj
      simpa [mapDelete, List.lookup, hj2] using ih
    · by_cases hja : j = a
      · simp [mapDelete, hk, List.lookup, hja]
      · have hj2 : (j == a) = false := by simpa using hja
        simpa [mapDelete, hk, List.lookup, hj2] using ih

theorem Close_eq_quit {σ : World} {p : Nat} {r : window}
    (hr : σ.heap[p]? = some r) (hq : r.master = true ∨ σ.windows.length = 1) :
    window.Close (some p) σ = .ok ((σ.emit (.ecoreHide r.ee)).emit .doQuit) := by
  have hd := deref_some hr
  simp only [window.Close, window.Hide, hd, deref_emit]
  rcases hq with hq | hq
  · simp [hq]
  · simp [hq, World.emit]

theorem Close_eq_delete {σ : World} {p : Nat} {r : window}
    (hr : σ.heap[p]? = some r) (hm : r.master = false) (hne : σ.windows.length ≠ 1) :
    window.Close (some p) σ =
      .ok { σ.emit (.ecoreHide r.ee) with windows := mapDelete σ.windows r.ee } := by
  have hd := deref_some hr
  simp only [window.Close, window.Hide, hd, deref_emit]
  simp [hm, hne, World.emit]

theorem Show_eq_master {σ : World} {p : Nat} {r : window}
    (hr : σ.heap[p]? = some r) (hl : σ.windows.length = 1) :
    window.Show (some p) σ =
      .ok (((σ.emit (.ecoreShow r.ee)).store (some p) { r with master := true }).emit
        .initEFL) := by
  simp [window.Show, deref_some hr, World.emit, hl]

theorem Show_eq_plain {σ : World} {p : Nat} {r : window}
    (hr : σ.heap[p]? = some r) (hl : σ.windows.length ≠ 1) :
    window.Show (some p) σ = .ok (σ.emit (.ecoreShow r.ee)) := by
  simp [window.Show, deref_some hr, World.emit, hl]

/-- C2: for every state and every window `w` (a valid `*window` with record
`r`), if `w` is the master window or the registry holds exactly one window,
`Close` hides the window and then calls `DoQuit`, leaving the registry and the
window records as they were. The registry is arbitrary, so this holds for
every number of non-master windows present when the master closes. -/
theorem close_master_or_sole_calls_DoQuit (σ : World) (p : Nat) (r : window)
    (hr : σ.heap[p]? = some r) (hq : r.master = true ∨ σ.windows.length = 1) :
    ∃ σ1, window.Close (some p) σ = .ok σ1 ∧
      σ1.trace = σ.trace ++ [Effect.ecoreHide r.ee, Effect.doQuit] ∧
      σ1.windows = σ.windows ∧ σ1.heap = σ.heap :=
  ⟨_, Close_eq_quit hr hq, by simp [World.emit], rfl, rfl⟩

/-- C3: for every registry holding at least two windows and every non-master
window `w`, after `w.Close()` the handle of `w` has no registry entry, every
other handle is mapped to the same `*window` as before, no window record has
changed, and the only action performed is hiding the window: `DoQuit` is not
called. -/
theorem close_non_master_removes_only_its_handle (σ : World) (p : Nat) (r : window)
    (hr : σ.heap[p]? = some r) (hm : r.master = false) (hlen : 2 ≤ σ.windows.length) :
    ∃ σ1, window.Close (some p) σ = .ok σ1 ∧
      σ1.lookup r.ee = none ∧
      (∀ k, k ≠ r.ee → σ1.lookup k = σ.lookup k) ∧
      σ1.heap = σ.heap ∧
      σ1.trace = σ.trace ++ [Effect.ecoreHide r.ee] :=
  ⟨_, Close_eq_delete hr hm (by omega), lookup_mapDelete_self _ _,
    fun _ hk => lookup_mapDelete_ne _ hk, rfl, rfl⟩

theorem lookup_none_any {m : List (Handle × Nat)} {k : Handle}
    (hk : List.lookup k m = none) : m.any (fun e => e.1 == k) = false := by
  induction m with
  | nil => rfl
  | cons e m ih =>
    obtain ⟨a, b⟩ := e
    by_cases hka : k = a
    · simp [List.lookup, hka] at hk
    · have h2 : (k == a) = false := by simpa using hka
      have h3 : (a == k) = false := by simpa using fun h => hka h.symm
      simp only [List.lookup, h2] at hk
      simp [List.any_cons, h3, ih hk]

theorem lookup_append_fresh {m : List (Handle × Nat)} {k : Handle} (v : Nat)
    (hk : List.lookup k m = none) : List.lookup k (m ++ [(k, v)]) = some v := by
  induction m with
  | nil => simp [List.lookup]
  | cons e m ih =>
    obtain ⟨a, b⟩ := e
    by_cases hka : k = a
    · simp [List.lookup, hka] at hk
    · have h2 : (k == a) = false := by simpa using hka
      simp only [List.lookup, h2] at hk
      simpa [List.lookup, h2] using ih hk

theorem lookup_append_ne {m : List (Handle × Nat)} {k j : Handle} (v : Nat)
    (hj : j ≠ k) : List.lookup j (m ++ [(k, v)]) = List.lookup j m := by
  induction m with
  | nil =>
    have h2 : (j == k) = false := by simpa using hj
    simp [List.lookup, h2]
  | cons e m ih =>
    obtain ⟨a, b⟩ := e
    by_cases hja : j = a
    · simp [List.lookup, hja]
    · have h2 : (j == a) = false := by simpa using hja
      simpa [List.lookup, h2] using ih

theorem mapPut_fresh {m : List (Handle × Nat)} {k : Handle} (v : Nat)
    (hk : List.lookup k m = none) : mapPut m k v = m ++ [(k, v)] := by
  simp [mapPut, lookup_none_any hk]

theorem CreateWindow_ok (h : Host) (d : Nat) (title : String) (evas : Handle)
    (σ : World) (hnz : evas ≠ 0) :
    CreateWindow h d title evas σ = .ok (created h d title evas σ, some σ.heap.length) := by
  simp [CreateWindow, hnz, window.SetTitle, World.deref, World.emit, World.store,
    eflCanvas.SetContent, created, createdWindow]

/-- C4: for every state and title, when `ecore_evas_new` returns a non-nil
handle that has no registry entry, `CreateWindow` returns a window `p` such
that the registry maps the handle to `p`, the handle occurs exactly once in the
registry, the registry has one more entry than before, every earlier entry
still maps to the same window with the same record, and the new window has
that handle, is not master and has a canvas of scale `float32(1.0)`, whose
value is `1`. -/
theorem CreateWindow_registers (h : Host) (d : Nat) (title : String)
    (evas : Handle) (σ : World) (hnz : evas ≠ 0) (hfresh : σ.lookup evas = none) :
    ∃ σ1 p r c, CreateWindow h d title evas σ = .ok (σ1, some p) ∧
      σ1.lookup evas = some p ∧
      (σ1.windows.filter (fun e => e.1 = evas)).length = 1 ∧
      σ1.windows.length = σ.windows.length + 1 ∧
      (∀ k q r0, σ.lookup k = some q → σ.heap[q]? = some r0 →
        σ1.lookup k = some q ∧ σ1.heap[q]? = some r0) ∧
      σ1.heap[p]? = some r ∧ r.ee = evas ∧ r.master = false ∧
      r.canvas = some c ∧ c.scale = float32_1_0 ∧ c.scale.toRat = 1 := by
  have hput := mapPut_fresh σ.heap.length hfresh
  refine ⟨created h d title evas σ, σ.heap.length, createdWindow h d evas σ.heap.length, _,
    CreateWindow_ok h d title evas σ hnz, ?_, ?_, ?_, ?_, ?_, rfl, rfl, rfl, rfl, ?_⟩
  · simp only [World.lookup, created, hput]
    exact lookup_append_fresh _ hfresh
  · simp only [created, hput, List.filter_append]
    have h0 : σ.windows.filter (fun e => decide (e.1 = evas)) = [] := by
      have := lookup_none_any hfresh
      simp only [List.any_eq_false] at this
      simp only [List.filter_eq_nil_iff]
      intro e he
      simpa using this e he
    simp [h0]
  · simp [created, hput]
  · intro k q r0 hk hq
    have hne : k ≠ evas := by
      intro he
      rw [he, hfresh] at hk
      cases hk
    constructor
    · simp only [World.lookup, created, hput]
      rw [lookup_append_ne _ hne]
      exact hk
    · have hlt : q < σ.heap.length := by
        by_contra hge
        have : σ.heap[q]? = none := List.getElem?_eq_none (by omega)
        rw [this] at hq
        cases hq
      simp only [created]
      rw [List.getElem?_append_left hlt]
      exact hq
  · simp [created, createdWindow]
  · rw [float32_1_0_eq]
    simp [F32.toRat, F32.one]

theorem findWindow_no_match (h : Host) (ew : Nat) (σ : World) (w : WinPtr) :
    ∀ m : List (Handle × Nat),
      (∀ e ∈ m, ∃ r, σ.heap[e.2]? = some r ∧ h.window_get r.ee ≠ ew) →
      findWindow h ew σ m w = .ok w := by
  intro m
  induction m with
  | nil => intro _; rfl
  | cons e m ih =>
    intro hall
    obtain ⟨r, hr, hne⟩ := hall e (List.mem_cons_self _ _)
    obtain ⟨a, p⟩ := e
    simp only [findWindow, deref_some hr, hne, if_false]
    exact ih (fun e he => hall e (List.mem_cons_of_mem _ he))

/-- C5: for every native key info and every window `p` that the scan of
`onWindowKeyDown` finds for a non-null window reference, the deliveries are
decided by the canvas of `p` alone: with a focused target and an observer the
same key event goes once to the target and then once to the observer; with
only one of them it goes once to that one; with neither nothing is delivered.
Nothing else is done, and the registry and the window records are unchanged.
The two handlers are defined outside this file: a delivery is the call, with
the event passed. -/
theorem keyDown_delivery_by_canvas (h : Host) (ew : Nat) (info : KeyInfo) (σ : World)
    (p : Nat) (r : window) (c : eflCanvas) (hew : ew ≠ 0)
    (hfind : findWindow h ew σ σ.windows none = .ok (some p))
    (hr : σ.heap[p]? = some r) (hc : r.canvas = some c) :
    ∃ σ1, onWindowKeyDown h ew info σ = .ok σ1 ∧
      σ1.heap = σ.heap ∧ σ1.windows = σ.windows ∧
      σ1.trace = σ.trace ++
        (match c.focussed, c.onKeyDown with
          | some t, some o =>
            [Effect.focusKeyDown t (keyEvent h info), Effect.observerKeyDown o (keyEvent h info)]
          | some t, none => [Effect.focusKeyDown t (keyEvent h info)]
          | none, some o => [Effect.observerKeyDown o (keyEvent h info)]
          | none, none => []) := by
  have hd := deref_some hr
  simp only [onWindowKeyDown, hew, if_false, hfind, hd, window.canvasAssert, hc]
  rcases hf : c.focussed with _ | t <;> rcases ho : c.onKeyDown with _ | o <;>
    simp [deliverKey, hf, ho, World.emit]

/-- C6: for every state and native key info, when the window reference is
null, or when the native window of every registered window differs from it,
`onWindowKeyDown` returns normally (no panic), and the state it leaves is the
state before with one log line appended to the trace: no key event is
delivered, and the registry and every canvas are unchanged. -/
theorem keyDown_without_window_only_logs (h : Host) (ew : Nat) (info : KeyInfo) (σ : World)
    (hmiss : ew = 0 ∨
      ∀ e ∈ σ.windows, ∃ r, σ.heap[e.2]? = some r ∧ h.window_get r.ee ≠ ew) :
    ∃ msg, onWindowKeyDown h ew info σ = .ok (σ.emit (.logLine msg)) ∧
      (σ.emit (.logLine msg)).heap = σ.heap ∧
      (σ.emit (.logLine msg)).windows = σ.windows ∧
      (σ.emit (.logLine msg)).trace = σ.trace ++ [Effect.logLine msg] := by
  by_cases hew : ew = 0
  · exact ⟨"Keystroke missing window", by simp [onWindowKeyDown, hew], rfl, rfl, rfl⟩
  · rcases hmiss with h0 | hall
    · exact absurd h0 hew
    · refine ⟨"Window not found", ?_, rfl, rfl, rfl⟩
      simp [onWindowKeyDown, hew, findWindow_no_match h ew σ none σ.windows hall]

/-- C8 fails on the code: for every state, when the native handle has no
registry entry, each of the resize, move and close adapters dereferences the
nil `*window` that the map lookup returns and panics. -/
theorem adapters_panic_on_unknown_handle (h : Host) (ee : Handle) (σ : World)
    (hmiss : σ.lookup ee = none) :
    onWindowResize h ee σ = .error .nilDeref ∧
    onWindowMove h ee σ = .error .nilDeref ∧
    onWindowClose ee σ = .error .nilDeref := by
  simp [onWindowResize, onWindowMove, onWindowClose, window.Close, window.Hide, hmiss,
    deref_none]

/-- C10 fails on the code: when `FYNE_SCALE` is non-empty and `ParseFloat`
rejects it (value `0`, non-nil error), `scaleByDPI` discards the error and
returns `0`, which is not the threshold value for the measured DPI. -/
theorem scaleByDPI_returns_zero_on_parse_error (h : Host) (r : window)
    (hset : h.getenv "FYNE_SCALE" ≠ "")
    (herr : h.ParseFloat (h.getenv "FYNE_SCALE") = (F32.fin 0, true)) :
    scaleByDPI h r = F32.fin 0 ∧
      scaleByDPI h r ≠ scaleReference none (h.screen_dpi r.ee) := by
  have h0 : scaleByDPI h r = F32.fin 0 := by simp [scaleByDPI, hset, herr]
  refine ⟨h0, ?_⟩
  rw [h0]
  simp only [scaleReference]
  split_ifs
  · decide
  · decide
  · decide

theorem keys_mapDelete (m : List (Handle × Nat)) (k : Handle) :
    (mapDelete m k).map Prod.fst = (m.map Prod.fst).filter (fun x => x != k) := by
  induction m with
  | nil => rfl
  | cons e m ih =>
    by_cases hk : e.1 = k
    · simpa [mapDelete, hk] using ih
    · simpa [mapDelete, hk] using ih

theorem filter_ne_of_not_mem {l : List Handle} {k : Handle} (hk : k ∉ l) :
    l.filter (fun x => x != k) = l := by
  rw [List.filter_eq_self]
  intro x hx
  have : x ≠ k := fun hxk => hk (hxk ▸ hx)
  simpa using this

theorem createAll_spec (h : Host) (d : Nat) :
    ∀ (hs : List Handle) (σ : World), 0 ∉ hs → hs.Nodup →
      (∀ e ∈ hs, σ.lookup e = none) →
      ∃ σ1, createAll h d hs σ = .ok σ1 ∧
        σ1.windows.length = σ.windows.length + hs.length ∧
        (∀ (i : Nat) (r : window), σ.heap[i]? = some r → σ1.heap[i]? = some r) ∧
        (quiet σ.trace → quiet σ1.trace) ∧
        σ1.windows.map Prod.fst = σ.windows.map Prod.fst ++ hs := by
  intro hs
  induction hs with
  | nil =>
    intro σ _ _ _
    exact ⟨σ, rfl, rfl, fun _ _ hr => hr, fun hq => hq, by simp⟩
  | cons e rest ih =>
    intro σ hnz hnd hfresh
    have he0 : e ≠ 0 := fun h0 => hnz (by simp [h0])
    have hefresh : σ.lookup e = none := hfresh e (List.mem_cons_self _ _)
    have hput := mapPut_fresh σ.heap.length hefresh
    have hrest : ∀ x ∈ rest, (created h d "" e σ).lookup x = none := by
      intro x hx
      have hxe : x ≠ e := by
        intro hxe
        rw [hxe] at hx
        exact (List.nodup_cons.mp hnd).1 hx
      simp only [World.lookup, created, hput]
      rw [lookup_append_ne _ hxe]
      exact hfresh x (List.mem_cons_of_mem _ hx)
    obtain ⟨σ1, hσ1, hlen, hheap, htr, hkeys⟩ := ih (created h d "" e σ)
      (fun h0 => hnz (List.mem_cons_of_mem _ h0)) (List.nodup_cons.mp hnd).2 hrest
    refine ⟨σ1, ?_, ?_, ?_, ?_, ?_⟩
    · simp only [createAll, CreateWindow_ok h d "" e σ he0]
      exact hσ1
    · rw [hlen]
      simp [created, hput]
      omega
    · intro i r hr
      apply hheap
      have hlt : i < σ.heap.length := by
        by_contra hge
        have : σ.heap[i]? = none := List.getElem?_eq_none (by omega)
        rw [this] at hr
        cases hr
      simp only [created]
      rw [List.getElem?_append_left hlt]
      exact hr
    · intro hq
      apply htr
      obtain ⟨h1, h2⟩ := hq
      constructor <;> simp [created, h1, h2]
    · rw [hkeys]
      simp [created, hput]

/-- C9, amended: in the state reached from a fresh process by creating one
window per handle of a non-empty list of distinct non-nil handles, the
registry holds exactly those handles, and `Show` on the first-created window
leaves the registry as it is and marks the window master and runs `initEFL`
if and only if it is the only window created. Closing it afterwards calls
`DoQuit` if and only if it is the only window created: then the registry is
left as it is; otherwise the window is only removed from the registry, which
afterwards holds exactly the handles of the other windows, each mapped to the
same window as before, and no window record is changed. -/
theorem show_first_created_master_iff_sole (h : Host) (d : Nat) (hs : List Handle)
    (hne : hs ≠ []) (hnz : 0 ∉ hs) (hnd : hs.Nodup) :
    ∃ σ σ1 σ2 r, createAll h d hs World.init = .ok σ ∧
      σ.windows.length = hs.length ∧
      window.Show (some 0) σ = .ok σ1 ∧
      σ1.heap[0]? = some r ∧ hs.head? = some r.ee ∧
      (r.master = true ↔ hs.length = 1) ∧
      (Effect.initEFL ∈ σ1.trace ↔ hs.length = 1) ∧
      window.Close (some 0) σ1 = .ok σ2 ∧
      (Effect.doQuit ∈ σ2.trace ↔ hs.length = 1) ∧
      σ.windows.map Prod.fst = hs ∧
      σ1.windows = σ.windows ∧
      σ2.heap = σ1.heap ∧
      (hs.length = 1 → σ2.windows = σ.windows) ∧
      (hs.length ≠ 1 →
        σ2.windows.map Prod.fst = hs.tail ∧
        σ2.lookup r.ee = none ∧
        (∀ k, k ≠ r.ee → σ2.lookup k = σ.lookup k) ∧
        σ2.trace = σ1.trace ++ [Effect.ecoreHide r.ee]) := by
  cases hs with
  | nil => exact absurd rfl hne
  | cons e rest =>
    have he0 : e ≠ 0 := fun h0 => hnz (by simp [h0])
    have herest : e ∉ rest := (List.nodup_cons.mp hnd).1
    have hrest : ∀ x ∈ rest, (created h d "" e World.init).lookup x = none := by
      intro x hx
      have hxe : x ≠ e := by
        intro hxe
        rw [hxe] at hx
        exact herest hx
      have h2 : (x == e) = false := by simpa using hxe
      simp [World.lookup, created, World.init, mapPut, List.lookup, h2]
    obtain ⟨σ, hσ, hlen, hheap, htr, hkeys⟩ :=
      createAll_spec h d rest (created h d "" e World.init)
        (fun h0 => hnz (List.mem_cons_of_mem _ h0)) (List.nodup_cons.mp hnd).2 hrest
    have hall : createAll h d (e :: rest) World.init = .ok σ := by
      simp only [createAll, CreateWindow_ok h d "" e World.init he0]
      exact hσ
    have hlen2 : σ.windows.length = (e :: rest).length := by
      rw [hlen]
      simp [created, World.init, mapPut]
      omega
    have hkeys2 : σ.windows.map Prod.fst = e :: rest := by
      rw [hkeys]
      simp [created, World.init, mapPut]
    have h0 : σ.heap[0]? = some (createdWindow h d e 0) :=
      hheap 0 _ (by simp [created, World.init])
    have hq : quiet σ.trace := htr (by simp [quiet, created, World.init])
    have hd := deref_some h0
    have hpos : 0 < σ.heap.length := by
      by_contra hge
      have : σ.heap[0]? = none := List.getElem?_eq_none (by omega)
      rw [this] at h0
      cases h0
    by_cases hone : (e :: rest).length = 1
    · have hl1 : σ.windows.length = 1 := by rw [hlen2]; exact hone
      have hshow := Show_eq_master h0 hl1
      have h1 : (((σ.emit (.ecoreShow (createdWindow h d e 0).ee)).store (some 0)
          { createdWindow h d e 0 with master := true }).emit .initEFL).heap[0]? =
          some { createdWindow h d e 0 with master := true } := by
        simp [World.emit, World.store, hpos]
      have hclose := Close_eq_quit h1 (Or.inl rfl)
      refine ⟨σ, _, _, _, hall, hlen2, hshow, h1, rfl, ?_, ?_, hclose, ?_, hkeys2, rfl, rfl,
        fun _ => rfl, fun hcon => absurd hone hcon⟩
      · simp [hone]
      · simp [World.emit, hone]
      · simp [World.emit, hone]
    · have hl1 : σ.windows.length ≠ 1 := by rw [hlen2]; exact hone
      have hshow := Show_eq_plain h0 hl1
      have h1 : (σ.emit (.ecoreShow (createdWindow h d e 0).ee)).heap[0]? =
          some (createdWindow h d e 0) := h0
      have hclose := Close_eq_delete h1 rfl hl1
      have hone2 : ¬ rest = [] := by simpa using hone
      have hk3 : (mapDelete σ.windows e).map Prod.fst = rest := by
        rw [keys_mapDelete, hkeys2]
        have hee : (e != e) = false := by simp
        simp only [List.filter_cons, hee]
        exact filter_ne_of_not_mem herest
      refine ⟨σ, _, _, _, hall, hlen2, hshow, h1, rfl, ?_, ?_, hclose, ?_, hkeys2, rfl, rfl,
        fun hcon => absurd hcon hone, fun _ => ⟨hk3, lookup_mapDelete_self _ _,
          fun _ hk => lookup_mapDelete_ne _ hk, rfl⟩⟩
      · simp [createdWindow, hone2]
      · have := hq.1
        simp [World.emit, this, hone2]
      · have := hq.2
        simp [World.emit, this, hone2]

/-- C1: `scaleByDPI` equals the reference function of the override and the
measured DPI `d`. When `FYNE_SCALE` is a non-empty string that `ParseFloat`
accepts (nil error) with value `v`, the result is `v` whatever `d` is; when
`FYNE_SCALE` is empty the result is `float32(1.5)` for `d > 250`,
`float32(1.2)` for `120 < d ≤ 250` and `float32(1.0)` for `d ≤ 120`, for every
integer `d`, the boundary values and the negative ones included. -/
theorem scaleByDPI_eq_scaleReference (h : Host) (r : window) :
    (∀ v, h.getenv "FYNE_SCALE" ≠ "" →
        h.ParseFloat (h.getenv "FYNE_SCALE") = (v, false) →
        scaleByDPI h r = scaleReference (some v) (h.screen_dpi r.ee)) ∧
    (h.getenv "FYNE_SCALE" = "" →
        scaleByDPI h r = scaleReference none (h.screen_dpi r.ee)) := by
  constructor
  · intro v hne hp
    simp [scaleByDPI, scaleReference, hne, hp]
  · intro he
    simp only [scaleByDPI, scaleReference, he]
    by_cases h1 : h.screen_dpi r.ee > 250
    · simp [h1]
    · by_cases h2 : h.screen_dpi r.ee > 120
      · have h3 : h.screen_dpi r.ee ≤ 250 := by omega
        simp [h1, h2, h3]
      · simp [h1, h2]

theorem log2Fuel_spec : ∀ (fuel n : Nat), 0 < n → n ≤ fuel →
    2 ^ log2Fuel fuel n ≤ n ∧ n < 2 ^ (log2Fuel fuel n + 1) := by
  intro fuel
  induction fuel with
  | zero => intro n h0 h1; omega
  | succ fuel ih =>
    intro n h0 h1
    by_cases h2 : n < 2
    · have : n = 1 := by omega
      simp [log2Fuel, this]
    · have h3 : 0 < n / 2 := by omega
      have h4 : n / 2 ≤ fuel := by omega
      obtain ⟨l, u⟩ := ih (n / 2) h3 h4
      simp only [log2Fuel, h2, if_false]
      rw [pow_succ] at u ⊢
      rw [pow_succ]
      constructor <;> omega

theorem ilog2_spec {n : Nat} (h0 : 0 < n) : 2 ^ ilog2 n ≤ n ∧ n < 2 ^ (ilog2 n + 1) :=
  log2Fuel_spec n n h0 (le_refl n)

theorem binExp_le {n d : Nat} (hn : 0 < n) (hd : 0 < d) (hlt : n < 2 ^ 24 * d) :
    binExp n d ≤ 23 := by
  obtain ⟨hna, _⟩ := ilog2_spec hn
  obtain ⟨_, hdb⟩ := ilog2_spec hd
  unfold binExp
  simp only
  by_contra hcon
  split_ifs at hcon with hc
  · -- 24 ≤ a - b
    have hab : ilog2 d + 24 ≤ ilog2 n := by omega
    obtain ⟨t, ht⟩ := Nat.exists_eq_add_of_le hab
    rw [ht, pow_add, pow_add] at hc
    have h1 : n * 2 ^ ilog2 d < 2 ^ 24 * d * 2 ^ ilog2 d :=
      Nat.mul_lt_mul_of_pos_right hlt (Nat.two_pow_pos _)
    have h2 : 2 ^ 24 * d * 2 ^ ilog2 d ≤ d * (2 ^ ilog2 d * 2 ^ 24 * 2 ^ t) := by
      have : 1 ≤ 2 ^ t := Nat.one_le_two_pow
      calc 2 ^ 24 * d * 2 ^ ilog2 d = d * (2 ^ ilog2 d * 2 ^ 24) * 1 := by ring
        _ ≤ d * (2 ^ ilog2 d * 2 ^ 24) * 2 ^ t := Nat.mul_le_mul_left _ this
        _ = d * (2 ^ ilog2 d * 2 ^ 24 * 2 ^ t) := by ring
    omega
  · have hab : ilog2 d + 25 ≤ ilog2 n := by omega
    obtain ⟨t, ht⟩ := Nat.exists_eq_add_of_le hab
    rw [ht, pow_add, pow_add] at hna
    have h1 : 2 ^ 24 * d < 2 ^ 24 * 2 ^ (ilog2 d + 1) :=
      Nat.mul_lt_mul_of_pos_left hdb (by norm_num)
    have h2 : 2 ^ 24 * 2 ^ (ilog2 d + 1) ≤ 2 ^ ilog2 d * 2 ^ 25 * 2 ^ t := by
      have : 1 ≤ 2 ^ t := Nat.one_le_two_pow
      calc 2 ^ 24 * 2 ^ (ilog2 d + 1) = 2 ^ ilog2 d * 2 ^ 25 * 1 := by ring
        _ ≤ 2 ^ ilog2 d * 2 ^ 25 * 2 ^ t := Nat.mul_le_mul_left _ this
    omega

theorem le_roundHalfEven {m d a : Nat} (hd : 0 < d) (ha : a * d ≤ m) :
    a ≤ roundHalfEven m d := by
  have hq : a ≤ m / d := (Nat.le_div_iff_mul_le hd).mpr ha
  unfold roundHalfEven
  simp only
  split_ifs <;> omega

theorem roundHalfEven_le {m d b : Nat} (hd : 0 < d) (hb : m ≤ b * d) :
    roundHalfEven m d ≤ b := by
  have hq : m / d ≤ b := by
    calc m / d ≤ b * d / d := Nat.div_le_div_right hb
      _ = b := Nat.mul_div_cancel _ hd
  have hdm := Nat.div_add_mod m d
  have hup : 0 < m % d → m / d + 1 ≤ b := by
    intro hr
    by_contra hcon
    have hqb : m / d = b := by omega
    rw [hqb] at hdm
    have : d * b = b * d := Nat.mul_comm _ _
    omega
  unfold roundHalfEven
  simp only
  split_ifs <;> omega

theorem roundMag_bounds {n d a b : Nat} (hn : 0 < n) (hd : 0 < d)
    (hlt : n < 2 ^ 24 * d) (ha : a * d ≤ n) (hb : n ≤ b * d) (hb24 : b ≤ 2 ^ 24) :
    ∃ u, roundMag n d = some u ∧ a * F32.one ≤ u ∧ u ≤ b * F32.one := by
  have he := binExp_le hn hd hlt
  obtain ⟨s, hs, hs149⟩ : ∃ s : Nat, max (binExp n d) (-126) - 23 = -(s : Int) ∧ s ≤ 149 := by
    refine ⟨(-(max (binExp n d) (-126) - 23)).toNat, ?_, ?_⟩ <;> omega
  have hp0 : -(s : Int) ≤ 0 := by omega
  have e1 : (- -(s : Int)).toNat = s := by simp
  have e2 : (-(s : Int) + 149).toNat = 149 - s := by omega
  have hsplit : 2 ^ s * 2 ^ (149 - s) = F32.one := by
    rw [← pow_add, F32.one]
    congr 1
    omega
  have hl : a * 2 ^ s ≤ roundHalfEven (n * 2 ^ s) d :=
    le_roundHalfEven hd (by
      calc a * 2 ^ s * d = a * d * 2 ^ s := by ring
        _ ≤ n * 2 ^ s := Nat.mul_le_mul_right _ ha)
  have hu : roundHalfEven (n * 2 ^ s) d ≤ b * 2 ^ s :=
    roundHalfEven_le hd (by
      calc n * 2 ^ s ≤ b * d * 2 ^ s := Nat.mul_le_mul_right _ hb
        _ = b * 2 ^ s * d := by ring)
  have hl2 : a * F32.one ≤ roundHalfEven (n * 2 ^ s) d * 2 ^ (149 - s) := by
    calc a * F32.one = a * 2 ^ s * 2 ^ (149 - s) := by rw [← hsplit]; ring
      _ ≤ roundHalfEven (n * 2 ^ s) d * 2 ^ (149 - s) := Nat.mul_le_mul_right _ hl
  have hu2 : roundHalfEven (n * 2 ^ s) d * 2 ^ (149 - s) ≤ b * F32.one := by
    calc roundHalfEven (n * 2 ^ s) d * 2 ^ (149 - s) ≤ b * 2 ^ s * 2 ^ (149 - s) :=
          Nat.mul_le_mul_right _ hu
      _ = b * F32.one := by rw [← hsplit]; ring
  have hfin : roundHalfEven (n * 2 ^ s) d * 2 ^ (149 - s) < 2 ^ 128 * F32.one := by
    have h1 : b * F32.one ≤ 2 ^ 24 * F32.one := Nat.mul_le_mul_right _ hb24
    have h2 : 2 ^ 24 * F32.one < 2 ^ 128 * F32.one :=
      Nat.mul_lt_mul_of_pos_right (by norm_num) (by simp [F32.one])
    omega
  refine ⟨roundHalfEven (n * 2 ^ s) d * 2 ^ (149 - s), ?_, hl2, hu2⟩
  unfold roundMag
  simp only [hs, hp0, if_true, e1, e2, hfin]

theorem round_pos_of_roundMag {n d u : Nat} (hu : roundMag n d = some u) :
    F32.round false n d = .fin (u : Int) := by
  unfold F32.round
  rw [hu]
  by_cases h0 : u = 0
  · simp [h0, F32.zero]
  · simp [h0]

theorem ofInt_exact {W : Nat} (hW : W < 2 ^ 24) :
    F32.ofInt (W : Int) = .fin ((W * F32.one : Nat) : Int) := by
  unfold F32.ofInt
  by_cases h0 : W = 0
  · simp [h0]
  · have hpos : 0 < W := Nat.pos_of_ne_zero h0
    obtain ⟨u, hu, hl, hr⟩ := roundMag_bounds (a := W) (b := W) hpos Nat.one_pos
      (by omega) (by omega) (by omega) (by omega)
    have hWi : ¬ ((W : Int) = 0) := by omega
    have hneg : ¬ ((W : Int) < 0) := by omega
    have hue : u = W * F32.one := by omega
    simp only [hWi, if_false, hneg, decide_False, Int.natAbs_ofNat]
    rw [round_pos_of_roundMag hu, hue]

theorem toInt_fin_nat (indef : Int) {u : Nat} (hu : u / F32.one < 2 ^ 63) :
    F32.toInt indef (.fin (u : Int)) = ((u / F32.one : Nat) : Int) := by
  have hneg : ¬ ((u : Int) < 0) := by omega
  have h0 : (0 : Int) ≤ ((u / F32.one : Nat) : Int) := Int.ofNat_nonneg _
  have h1 : -((2 ^ 63 : Nat) : Int) ≤ ((u / F32.one : Nat) : Int) := by
    have : (0 : Int) ≤ ((2 ^ 63 : Nat) : Int) := Int.ofNat_nonneg _
    omega
  have h2 : ((u / F32.one : Nat) : Int) < ((2 ^ 63 : Nat) : Int) := by
    exact_mod_cast hu
  simp only [F32.toInt, hneg, if_false, Int.natAbs_ofNat, h1, h2, and_self, if_true]

theorem logicalSize_bounds (h : Host) {W ks a b : Nat} (hks : 0 < ks) (hW : W < 2 ^ 24)
    (ha : a * ks ≤ W * F32.one) (hb : W * F32.one ≤ b * ks)
    (hlt : W * F32.one < 2 ^ 24 * ks) (hb24 : b ≤ 2 ^ 24) :
    (a : Int) ≤ logicalSize h (W : Int) (.fin (ks : Int)) ∧
      logicalSize h (W : Int) (.fin (ks : Int)) ≤ (b : Int) := by
  have hone : 0 < F32.one := by simp [F32.one]
  have hksi : ¬ ((ks : Int) = 0) := by omega
  have hksn : ¬ ((ks : Int) < 0) := by omega
  unfold logicalSize
  rw [ofInt_exact hW]
  by_cases h0 : W = 0
  · subst h0
    have ha0 : a = 0 := by
      rcases Nat.eq_zero_or_pos a with h | h
      · exact h
      · have : 0 < a * ks := Nat.mul_pos h hks
        omega
    have hdiv : F32.div (.fin ((0 * F32.one : Nat) : Int)) (.fin (ks : Int)) =
        .fin ((0 : Nat) : Int) := by
      simp [F32.div, F32.isZero, F32.sign, F32.zero, hksi, hksn]
    rw [hdiv, toInt_fin_nat _ (by simp)]
    simp [ha0]
  · have hn : 0 < W * F32.one := Nat.mul_pos (Nat.pos_of_ne_zero h0) hone
    obtain ⟨u, hu, hl, hr⟩ := roundMag_bounds hn hks hlt ha hb hb24
    have hni : ¬ (((W * F32.one : Nat) : Int) = 0) := by omega
    have hnn : ¬ (((W * F32.one : Nat) : Int) < 0) := by omega
    have hdiv : F32.div (.fin ((W * F32.one : Nat) : Int)) (.fin (ks : Int)) =
        .fin (u : Int) := by
      simp only [F32.div, F32.isZero, F32.sign, F32.mag, hksi, hni, hksn, hnn, decide_False,
        Bool.xor_false, Int.natAbs_ofNat]
      simpa using round_pos_of_roundMag hu
    have hq1 : a ≤ u / F32.one := (Nat.le_div_iff_mul_le hone).mpr hl
    have hq2 : u / F32.one ≤ b := by
      calc u / F32.one ≤ b * F32.one / F32.one := Nat.div_le_div_right hr
        _ = b := Nat.mul_div_cancel _ hone
    have hq3 : u / F32.one < 2 ^ 63 := by
      have : (2 : Nat) ^ 24 < 2 ^ 63 := by norm_num
      omega
    rw [hdiv, toInt_fin_nat _ hq3]
    constructor <;> omega

theorem toRat_pos {s : F32} (hs : 0 < s.toRat) : ∃ ks : Nat, 0 < ks ∧ s = .fin (ks : Int) := by
  cases s with
  | fin u =>
    have hone : (0 : ℚ) < (F32.one : ℚ) := by simp [F32.one]
    have hu : (0 : ℚ) < (u : ℚ) := by
      by_contra hcon
      have : (u : ℚ) / (F32.one : ℚ) ≤ 0 := div_nonpos_of_nonpos_of_nonneg (not_lt.mp hcon) hone.le
      simp only [F32.toRat] at hs
      linarith
    have hu2 : 0 < u := by exact_mod_cast hu
    refine ⟨u.toNat, by omega, ?_⟩
    congr 1
    omega
  | negZero => simp [F32.toRat] at hs
  | inf n => simp [F32.toRat] at hs
  | nan => simp [F32.toRat] at hs

theorem logicalSize_floor_ceil (h : Host) {px : Int} {s : F32} (hs : 0 < s.toRat)
    (h0 : 0 ≤ px) (h24 : px < 2 ^ 24) (hq : (px : ℚ) / s.toRat < 2 ^ 24) :
    ⌊(px : ℚ) / s.toRat⌋ ≤ logicalSize h px s ∧
      logicalSize h px s ≤ ⌈(px : ℚ) / s.toRat⌉ := by
  obtain ⟨ks, hks, rfl⟩ := toRat_pos hs
  obtain ⟨W, rfl⟩ := Int.eq_ofNat_of_zero_le h0
  have hW : W < 2 ^ 24 := by exact_mod_cast h24
  have hone : (0 : ℚ) < (F32.one : ℚ) := by simp [F32.one]
  have hksq : (0 : ℚ) < (ks : ℚ) := by exact_mod_cast hks
  have hqe : ((W : Int) : ℚ) / (F32.fin (ks : Int)).toRat =
      ((W * F32.one : Nat) : ℚ) / (ks : ℚ) := by
    simp only [F32.toRat]
    push_cast
    field_simp
  rw [hqe] at hq ⊢
  set q : ℚ := ((W * F32.one : Nat) : ℚ) / (ks : ℚ) with hqdef
  have hq0 : 0 ≤ q := div_nonneg (by positivity) hksq.le
  have hfl0 : 0 ≤ ⌊q⌋ := Int.floor_nonneg.mpr hq0
  have hce0 : 0 ≤ ⌈q⌉ := Int.ceil_nonneg hq0
  obtain ⟨a, ha⟩ := Int.eq_ofNat_of_zero_le hfl0
  obtain ⟨b, hb⟩ := Int.eq_ofNat_of_zero_le hce0
  have ha1 : ((a : Int) : ℚ) ≤ q := by rw [← ha]; exact Int.floor_le q
  have hb1 : q ≤ ((b : Int) : ℚ) := by rw [← hb]; exact Int.le_ceil q
  have ha2 : a * ks ≤ W * F32.one := by
    have : ((a : Int) : ℚ) * (ks : ℚ) ≤ ((W * F32.one : Nat) : ℚ) := (le_div_iff₀ hksq).mp ha1
    exact_mod_cast this
  have hb2 : W * F32.one ≤ b * ks := by
    have : ((W * F32.one : Nat) : ℚ) ≤ ((b : Int) : ℚ) * (ks : ℚ) := (div_le_iff₀ hksq).mp hb1
    exact_mod_cast this
  have hlt : W * F32.one < 2 ^ 24 * ks := by
    have : ((W * F32.one : Nat) : ℚ) < 2 ^ 24 * (ks : ℚ) := (div_lt_iff₀ hksq).mp hq
    exact_mod_cast this
  have hb24 : b ≤ 2 ^ 24 := by
    have : ⌈q⌉ ≤ ((2 ^ 24 : Nat) : Int) := Int.ceil_le.mpr (by push_cast; exact hq.le)
    rw [hb] at this
    exact_mod_cast this
  have := logicalSize_bounds h hks hW ha2 hb2 hlt hb24
  rw [ha, hb]
  exact this

theorem onWindowResize_ok (h : Host) (σ : World) (ee : Handle) (p : Nat) (r : window)
    (c : eflCanvas) (hreg : σ.lookup ee = some p) (hr : σ.heap[p]? = some r)
    (hc : r.canvas = some c) :
    onWindowResize h ee σ = .ok
      { heap := σ.heap.set p { r with canvas := some { c with
          size := (logicalSize h (h.geometry ee).1 c.scale,
            logicalSize h (h.geometry ee).2 c.scale) } }
        windows := σ.windows
        trace := σ.trace ++ [Effect.refresh (some p) c.content] } := by
  simp [onWindowResize, hreg, deref_some hr, window.canvasAssert, hc, eflCanvas.Refresh,
    eflCanvas.Scale, World.store, World.emit]

/-- C7, amended: for every registered window whose canvas has a finite scale
`s > 0` and every native pixel geometry `(W, H)` with `0 ≤ W, H < 2 ^ 24` and
`W / s, H / s < 2 ^ 24`, the resize adapter returns normally, stores as logical
size `(int(float32(W) / s), int(float32(H) / s))`, computed in `float32`
arithmetic, changes nothing else in the window records or the registry, and
calls the canvas refresh exactly once, on the canvas's content. Each stored
component lies between the exact quotient rounded down and the exact quotient
rounded up, so it is the exact quotient whenever that is an integer. -/
theorem resize_stores_rounded_quotient (h : Host) (σ : World) (ee : Handle) (p : Nat)
    (r : window) (c : eflCanvas) (W H : Int)
    (hreg : σ.lookup ee = some p) (hr : σ.heap[p]? = some r) (hc : r.canvas = some c)
    (hs : 0 < c.scale.toRat) (hgeom : h.geometry ee = (W, H))
    (hW0 : 0 ≤ W) (hH0 : 0 ≤ H) (hW24 : W < 2 ^ 24) (hH24 : H < 2 ^ 24)
    (hqW : (W : ℚ) / c.scale.toRat < 2 ^ 24) (hqH : (H : ℚ) / c.scale.toRat < 2 ^ 24) :
    ∃ σ1 x y, onWindowResize h ee σ = .ok σ1 ∧
      σ1.heap = σ.heap.set p { r with canvas := some { c with size := (x, y) } } ∧
      σ1.windows = σ.windows ∧
      σ1.trace = σ.trace ++ [Effect.refresh (some p) c.content] ∧
      x = logicalSize h W c.scale ∧ y = logicalSize h H c.scale ∧
      ⌊(W : ℚ) / c.scale.toRat⌋ ≤ x ∧ x ≤ ⌈(W : ℚ) / c.scale.toRat⌉ ∧
      ⌊(H : ℚ) / c.scale.toRat⌋ ≤ y ∧ y ≤ ⌈(H : ℚ) / c.scale.toRat⌉ := by
  have hok := onWindowResize_ok h σ ee p r c hreg hr hc
  rw [hgeom] at hok
  obtain ⟨hx1, hx2⟩ := logicalSize_floor_ceil h hs hW0 hW24 hqW
  obtain ⟨hy1, hy2⟩ := logicalSize_floor_ceil h hs hH0 hH24 hqH
  exact ⟨_, _, _, hok, rfl, rfl, rfl, rfl, rfl, hx1, hx2, hy1, hy2⟩

/-- C1 at concrete inputs: the override `"2"` on a 300 DPI screen, and no
override on a 250 DPI screen. -/
theorem scaleByDPI_eq_scaleReference_witness :
    scaleByDPI (sampleHost "2" 300 (0, 0)) (createdWindow (sampleHost "2" 300 (0, 0)) 0 1 0) =
        scaleReference (some (F32.ofInt 2)) 300 ∧
      scaleByDPI (sampleHost "" 250 (0, 0)) (createdWindow (sampleHost "" 250 (0, 0)) 0 1 0) =
        scaleReference none 250 :=
  ⟨(scaleByDPI_eq_scaleReference (sampleHost "2" 300 (0, 0))
      (createdWindow (sampleHost "2" 300 (0, 0)) 0 1 0)).1 (F32.ofInt 2) (by decide) (by decide),
    (scaleByDPI_eq_scaleReference (sampleHost "" 250 (0, 0))
      (createdWindow (sampleHost "" 250 (0, 0)) 0 1 0)).2 (by decide)⟩

/-- C2 at a concrete input: closing the master window while two other windows
are registered. -/
theorem close_master_or_sole_calls_DoQuit_witness :
    ∃ σ1, window.Close (some 0) sampleWorld = .ok σ1 ∧
      σ1.trace = sampleWorld.trace ++ [Effect.ecoreHide 1, Effect.doQuit] ∧
      σ1.windows = sampleWorld.windows ∧ σ1.heap = sampleWorld.heap :=
  close_master_or_sole_calls_DoQuit sampleWorld 0 _ rfl (Or.inl rfl)

/-- C3 at a concrete input: closing the second of three windows. -/
theorem close_non_master_removes_only_its_handle_witness :
    ∃ σ1, window.Close (some 1) sampleWorld = .ok σ1 ∧
      σ1.lookup 2 = none ∧
      (∀ k, k ≠ 2 → σ1.lookup k = sampleWorld.lookup k) ∧
      σ1.heap = sampleWorld.heap ∧
      σ1.trace = sampleWorld.trace ++ [Effect.ecoreHide 2] :=
  close_non_master_removes_only_its_handle sampleWorld 1 _ rfl rfl (by decide)

/-- C4 at a concrete input: a fourth window, handle 9, titled `main`. -/
theorem CreateWindow_registers_witness :
    ∃ σ1 p r c, CreateWindow (sampleHost "" 96 (640, 480)) 0 "main" 9 sampleWorld =
        .ok (σ1, some p) ∧
      σ1.lookup 9 = some p ∧
      (σ1.windows.filter (fun e => e.1 = 9)).length = 1 ∧
      σ1.windows.length = sampleWorld.windows.length + 1 ∧
      (∀ k q r0, sampleWorld.lookup k = some q → sampleWorld.heap[q]? = some r0 →
        σ1.lookup k = some q ∧ σ1.heap[q]? = some r0) ∧
      σ1.heap[p]? = some r ∧ r.ee = 9 ∧ r.master = false ∧
      r.canvas = some c ∧ c.scale = float32_1_0 ∧ c.scale.toRat = 1 :=
  CreateWindow_registers (sampleHost "" 96 (640, 480)) 0 "main" 9 sampleWorld (by decide)
    (by decide)

/-- C5 at a concrete input: a key for the native window of handle 1, whose
canvas has both a focused target and an observer. -/
theorem keyDown_delivery_by_canvas_witness :
    ∃ σ1, onWindowKeyDown (sampleHost "" 96 (640, 480)) 101 sampleKey sampleWorld = .ok σ1 ∧
      σ1.heap = sampleWorld.heap ∧ σ1.windows = sampleWorld.windows ∧
      σ1.trace = sampleWorld.trace ++
        [Effect.focusKeyDown 7 (keyEvent (sampleHost "" 96 (640, 480)) sampleKey),
          Effect.observerKeyDown 9 (keyEvent (sampleHost "" 96 (640, 480)) sampleKey)] :=
  keyDown_delivery_by_canvas (sampleHost "" 96 (640, 480)) 101 sampleKey sampleWorld 0 _ _
    (by decide) (by decide) rfl rfl

/-- C6 at a concrete input: the window reference 555 matches none of the three
registered windows. -/
theorem keyDown_without_window_only_logs_witness :
    ∃ msg, onWindowKeyDown (sampleHost "" 96 (640, 480)) 555 sampleKey sampleWorld =
        .ok (sampleWorld.emit (.logLine msg)) ∧
      (sampleWorld.emit (.logLine msg)).heap = sampleWorld.heap ∧
      (sampleWorld.emit (.logLine msg)).windows = sampleWorld.windows ∧
      (sampleWorld.emit (.logLine msg)).trace = sampleWorld.trace ++ [Effect.logLine msg] :=
  keyDown_without_window_only_logs (sampleHost "" 96 (640, 480)) 555 sampleKey sampleWorld
    (Or.inr (by
      intro e he
      simp only [sampleWorld, List.mem_cons, List.mem_singleton, List.not_mem_nil,
        or_false] at he
      rcases he with rfl | rfl | rfl
      · exact ⟨_, rfl, by decide⟩
      · exact ⟨_, rfl, by decide⟩
      · exact ⟨_, rfl, by decide⟩))

/-- C8 at a concrete input: the second of three windows is closed, which
removes its handle from the registry; resize, move and delete-request
callbacks for that handle then panic. -/
theorem adapters_panic_on_unknown_handle_witness :
    window.Close (some 1) sampleWorld =
        .ok { sampleWorld with
          windows := [(1, 0), (3, 2)], trace := [Effect.ecoreHide 2] } ∧
      onWindowResize (sampleHost "" 96 (640, 480)) 2
        { sampleWorld with windows := [(1, 0), (3, 2)], trace := [Effect.ecoreHide 2] } =
        .error .nilDeref ∧
      onWindowMove (sampleHost "" 96 (640, 480)) 2
        { sampleWorld with windows := [(1, 0), (3, 2)], trace := [Effect.ecoreHide 2] } =
        .error .nilDeref ∧
      onWindowClose 2
        { sampleWorld with windows := [(1, 0), (3, 2)], trace := [Effect.ecoreHide 2] } =
        .error .nilDeref :=
  ⟨by decide, adapters_panic_on_unknown_handle (sampleHost "" 96 (640, 480)) 2
    { sampleWorld with windows := [(1, 0), (3, 2)], trace := [Effect.ecoreHide 2] }
    (by decide)⟩

/-- C10 at a concrete input: `FYNE_SCALE` is `abc` on a 300 DPI screen. -/
theorem scaleByDPI_returns_zero_on_parse_error_witness :
    scaleByDPI (sampleHost "abc" 300 (0, 0)) (createdWindow (sampleHost "abc" 300 (0, 0)) 0 1 0)
        = F32.fin 0 ∧
      scaleByDPI (sampleHost "abc" 300 (0, 0))
          (createdWindow (sampleHost "abc" 300 (0, 0)) 0 1 0) ≠
        scaleReference none 300 :=
  scaleByDPI_returns_zero_on_parse_error (sampleHost "abc" 300 (0, 0))
    (createdWindow (sampleHost "abc" 300 (0, 0)) 0 1 0) (by decide) (by decide)

/-- C9 as stated fails for two windows: after creating windows with handles 1
and 2 and showing the first, that window is not master, `initEFL` has not been
run, and closing it removes its handle from the registry without calling
`DoQuit`, leaving the second window registered. -/
theorem show_first_of_two_not_master :
    ∃ σ σ1 σ2 r, createAll (sampleHost "" 96 (640, 480)) 0 [1, 2] World.init = .ok σ ∧
      window.Show (some 0) σ = .ok σ1 ∧
      σ1.heap[0]? = some r ∧ r.ee = 1 ∧ r.master = false ∧
      Effect.initEFL ∉ σ1.trace ∧
      window.Close (some 0) σ1 = .ok σ2 ∧ Effect.doQuit ∉ σ2.trace ∧
      σ2.lookup 1 = none ∧ σ2.windows = [(2, 1)] :=
  ⟨_, _, _, _, rfl, rfl, rfl, rfl, rfl, by decide, rfl, by decide, by decide, by decide⟩

/-- C9, amended, at two concrete inputs: a single window with handle 4, and
three windows with handles 4, 5, 6, where closing the first leaves exactly
the handles 5 and 6 registered. -/
theorem show_first_created_master_iff_sole_witness :
    (∃ σ σ1 σ2 r, createAll (sampleHost "" 96 (640, 480)) 0 [4] World.init = .ok σ ∧
      σ.windows.length = [4].length ∧
      window.Show (some 0) σ = .ok σ1 ∧
      σ1.heap[0]? = some r ∧ [4].head? = some r.ee ∧
      (r.master = true ↔ [4].length = 1) ∧
      (Effect.initEFL ∈ σ1.trace ↔ [4].length = 1) ∧
      window.Close (some 0) σ1 = .ok σ2 ∧
      (Effect.doQuit ∈ σ2.trace ↔ [4].length = 1) ∧
      σ.windows.map Prod.fst = [4] ∧
      σ1.windows = σ.windows ∧
      σ2.heap = σ1.heap ∧
      ([4].length = 1 → σ2.windows = σ.windows) ∧
      ([4].length ≠ 1 →
        σ2.windows.map Prod.fst = [4].tail ∧
        σ2.lookup r.ee = none ∧
        (∀ k, k ≠ r.ee → σ2.lookup k = σ.lookup k) ∧
        σ2.trace = σ1.trace ++ [Effect.ecoreHide r.ee])) ∧
    (∃ σ σ1 σ2 r, createAll (sampleHost "" 96 (640, 480)) 0 [4, 5, 6] World.init = .ok σ ∧
      σ.windows.length = [4, 5, 6].length ∧
      window.Show (some 0) σ = .ok σ1 ∧
      σ1.heap[0]? = some r ∧ [4, 5, 6].head? = some r.ee ∧
      (r.master = true ↔ [4, 5, 6].length = 1) ∧
      (Effect.initEFL ∈ σ1.trace ↔ [4, 5, 6].length = 1) ∧
      window.Close (some 0) σ1 = .ok σ2 ∧
      (Effect.doQuit ∈ σ2.trace ↔ [4, 5, 6].length = 1) ∧
      σ.windows.map Prod.fst = [4, 5, 6] ∧
      σ1.windows = σ.windows ∧
      σ2.heap = σ1.heap ∧
      ([4, 5, 6].length = 1 → σ2.windows = σ.windows) ∧
      ([4, 5, 6].length ≠ 1 →
        σ2.windows.map Prod.fst = [4, 5, 6].tail ∧
        σ2.lookup r.ee = none ∧
        (∀ k, k ≠ r.ee → σ2.lookup k = σ.lookup k) ∧
        σ2.trace = σ1.trace ++ [Effect.ecoreHide r.ee])) :=
  ⟨show_first_created_master_iff_sole (sampleHost "" 96 (640, 480)) 0 [4] (by decide)
      (by decide) (by decide),
    show_first_created_master_iff_sole (sampleHost "" 96 (640, 480)) 0 [4, 5, 6] (by decide)
      (by decide) (by decide)⟩

theorem float32_1_0_toRat : float32_1_0.toRat = 1 := by
  rw [float32_1_0_eq]
  simp [F32.toRat, F32.one]

theorem float32_1_2_toRat : float32_1_2.toRat = 5033165 / 4194304 := by
  rw [float32_1_2_eq]
  simp only [F32.toRat, F32.one]
  norm_num

set_option maxRecDepth 4096 in
/-- C7 as stated fails. At scale `float32(1.0)` and width `16777217` the stored
width is `16777216`, while the quotient truncated is `16777217`. At scale
`float32(1.2)` (set by a move onto a 200 DPI screen) and geometry `(6, 600)`
the stored size is `(5, 499)`, while `6 / s` truncated is `4` for the stored
scale `s`, and `600 / 1.2` is `500`. -/
theorem resize_truncated_quotient_fails :
    (∃ σ0 σ1, createAll (sampleHost "" 96 (16777217, 480)) 0 [1] World.init = .ok σ0 ∧
      storedScale σ0 0 = some float32_1_0 ∧
      onWindowResize (sampleHost "" 96 (16777217, 480)) 1 σ0 = .ok σ1 ∧
      storedSize σ1 0 = some (16777216, 480) ∧
      ⌊(16777217 : ℚ) / float32_1_0.toRat⌋ = 16777217) ∧
    (∃ σ0 σ1 σ2, createAll (sampleHost "" 200 (6, 600)) 0 [1] World.init = .ok σ0 ∧
      onWindowMove (sampleHost "" 200 (6, 600)) 1 σ0 = .ok σ1 ∧
      storedScale σ1 0 = some float32_1_2 ∧
      onWindowResize (sampleHost "" 200 (6, 600)) 1 σ1 = .ok σ2 ∧
      storedSize σ2 0 = some (5, 499) ∧
      ⌊(6 : ℚ) / float32_1_2.toRat⌋ = 4 ∧
      ⌊(600 : ℚ) / (12 / 10)⌋ = 500) := by
  refine ⟨⟨_, _, rfl, rfl, rfl, rfl, ?_⟩,
    ⟨_, _, _, rfl, rfl, rfl, rfl, rfl, ?_, ?_⟩⟩
  · rw [float32_1_0_toRat]
    norm_num
  · rw [float32_1_2_toRat, Int.floor_eq_iff]
    norm_num
  · rw [Int.floor_eq_iff]
    norm_num

/-- C7, amended, at a concrete input: a 640 by 480 window at scale 1.0. -/
theorem resize_stores_rounded_quotient_witness :
    ∃ σ1 x y, onWindowResize (sampleHost "" 96 (640, 480)) 1 sampleWorld = .ok σ1 ∧
      σ1.heap = sampleWorld.heap.set 0
        { ee := 1, driver := 0, master := true
          canvas := some
            { evas := 1001, scale := float32_1_0, window := 0, size := (x, y),
              content := .emptyContainer, focussed := some 7, onKeyDown := some 9 } } ∧
      σ1.windows = sampleWorld.windows ∧
      σ1.trace = sampleWorld.trace ++ [Effect.refresh (some 0) Content.emptyContainer] ∧
      x = logicalSize (sampleHost "" 96 (640, 480)) 640 float32_1_0 ∧
      y = logicalSize (sampleHost "" 96 (640, 480)) 480 float32_1_0 ∧
      ⌊((640 : Int) : ℚ) / float32_1_0.toRat⌋ ≤ x ∧ x ≤ ⌈((640 : Int) : ℚ) / float32_1_0.toRat⌉ ∧
      ⌊((480 : Int) : ℚ) / float32_1_0.toRat⌋ ≤ y ∧
      y ≤ ⌈((480 : Int) : ℚ) / float32_1_0.toRat⌉ :=
  resize_stores_rounded_quotient (sampleHost "" 96 (640, 480)) sampleWorld 1 0 _ _ 640 480
    rfl rfl rfl (by rw [float32_1_0_toRat]; norm_num) rfl (by norm_num) (by norm_num)
    (by norm_num) (by norm_num) (by rw [float32_1_0_toRat]; norm_num)
    (by rw [float32_1_0_toRat]; norm_num)

end Efl
